import Mathlib

/-!
Shallow embedding of the VUIIS qsiprep-prep staging scripts
(src/scripts/bidsify_qsiprep.py, src/scripts/bidsify_qsiprep_draft.py,
src/scripts/bidsify_qsiprep_func.py, src/scripts/rename_fs_dir.py), with
proofs about the metadata normalizer, the filename classifier, the
canonical namer, the staging orchestrator and the registry writer.
-/

namespace Qsi

/-- JSON values as they occur in the metadata records handled by the
scripts: null, booleans, numbers (modelled as exact rationals), strings,
and arrays of strings (the only array shape the scripts write or inspect
is the IntendedFor cross-reference list; no script looks inside any other
nested value). -/
inductive JVal where
  | null : JVal
  | bool (b : Bool) : JVal
  | num (q : ℚ) : JVal
  | str (s : String) : JVal
  | arr (xs : List String) : JVal
deriving DecidableEq, Repr

/-- Python truthiness of a JSON value (`bool(v)`): None, False, 0, the
empty string and the empty list are falsy. -/
def falsy : JVal → Bool
  | .null => true
  | .bool b => !b
  | .num q => q == 0
  | .str s => s == ""
  | .arr xs => xs.isEmpty

/-- A loaded metadata record (`json.load`): an association list from keys
to values.  Records produced by `json.load` never bind a key twice. -/
abbrev Dict := List (String × JVal)

/-- `meta.get(k)` / `k in meta`: the first binding of the key. -/
def dGet : Dict → String → Option JVal
  | [], _ => none
  | (k, v) :: t, key => if k = key then some v else dGet t key

/-- `meta[k] = v`: replace the value of an existing key in place, append a
fresh key at the end (Python dicts keep insertion order; `save_json` sorts
keys on output, so binding order never matters downstream). -/
def dSet : Dict → String → JVal → Dict
  | [], key, v => [(key, v)]
  | (k, w) :: t, key, v =>
    if k = key then (key, v) :: t else (k, w) :: dSet t key v

/-- `del meta[k]`: drop the binding of the key (keys are unique in records
coming from `json.load`, so dropping every binding is the same removal). -/
def dDel (m : Dict) (key : String) : Dict :=
  m.filter (fun p => p.1 ≠ key)

/-- Truthiness of `meta.get(k)`: an absent key reads as None, hence falsy. -/
def falsyOpt : Option JVal → Bool
  | none => true
  | some v => falsy v

/-- ASCII whitespace as stripped by `str.strip()` (tab, newline, vertical
tab, form feed, carriage return, space; no other whitespace occurs in the
data these scripts touch). -/
def pyWs (c : Char) : Bool :=
  c.toNat == 9 || c.toNat == 10 || c.toNat == 11 || c.toNat == 12 ||
    c.toNat == 13 || c.toNat == 32

/-- The character class `[A-Za-z0-9]` used by the label sanitizers. -/
def pyAlnum (c : Char) : Bool :=
  (48 ≤ c.toNat && c.toNat ≤ 57) || (65 ≤ c.toNat && c.toNat ≤ 90) ||
    (97 ≤ c.toNat && c.toNat ≤ 122)

/-- `str.strip()` on the character list of a string. -/
def pyStripL (l : List Char) : List Char :=
  ((l.dropWhile pyWs).reverse.dropWhile pyWs).reverse

/-- `str.strip()`. -/
def pyStrip (s : String) : String :=
  String.mk (pyStripL s.data)

/-- `sanitize_bids_subj` / `sanitize_bids_label`: `re.sub` with pattern
`[^A-Za-z0-9]+` drops every character outside the class; an empty result
becomes the sentinel "UNKNOWN". -/
def sanitize (raw : String) : String :=
  let cleaned := raw.data.filter pyAlnum
  if cleaned = [] then "UNKNOWN" else String.mk cleaned

/-- The shared first block of every `update_dwi_json` / `update_fmap_json`
variant (textually identical in all three scripts): if
EstimatedTotalReadoutTime is present, copy its value onto a
falsy-or-absent TotalReadoutTime, then delete it unconditionally. -/
def migrate_readout (m : Dict) : Dict :=
  match dGet m "EstimatedTotalReadoutTime" with
  | none => m
  | some e =>
    let m1 := if falsyOpt (dGet m "TotalReadoutTime")
      then dSet m "TotalReadoutTime" e else m
    dDel m1 "EstimatedTotalReadoutTime"

/-- `(k not in meta) or (str(meta.get(k, "")).strip() == "")`: only a
present string value whose strip is empty reads as blank (the `str` image
of None, of a bool, of a number or of a list is never blank). -/
def blankVal : Option JVal → Bool
  | none => true
  | some (.str s) => pyStrip s == ""
  | some _ => false

/-- The direction field is absent or blank. -/
def pedMissing (m : Dict) : Bool := blankVal (dGet m "PhaseEncodingDirection")

/-- The axis field is absent or blank. -/
def peaMissing (m : Dict) : Bool := blankVal (dGet m "PhaseEncodingAxis")

/-- The exception text raised by the strict normalizers. -/
def axisErr : String :=
  "Did not find PhaseEncodingAxis to determine PhaseEncodingDirection"

/-- `replace("-", "")` when a hyphen is present, else `+ "-"`. -/
def togglePolarity (s : String) : String :=
  if s.data.contains '-' then String.mk (s.data.filter (fun c => c ≠ '-'))
  else s ++ "-"

/-- Direction-derivation block of the strict normalizers
(bidsify_qsiprep.py and bidsify_qsiprep_func.py, textually identical): if
the direction field is absent or blank, require a non-blank
PhaseEncodingAxis (the exception otherwise), copy it over, and toggle its
polarity when `reverse_pedir` is set.  `"-" in v` on a non-string axis
value raises a TypeError in Python; the `none` inner branch is unreachable
because `peaMissing` already failed. -/
def derive_ped (m : Dict) (reverse_pedir : Bool) : Except String Dict :=
  if pedMissing m then
    if peaMissing m then Except.error axisErr
    else
      match dGet m "PhaseEncodingAxis" with
      | none => Except.error axisErr
      | some ax =>
        if reverse_pedir then
          match ax with
          | .str s =>
            Except.ok (dSet (dSet m "PhaseEncodingDirection" (JVal.str s))
              "PhaseEncodingDirection" (JVal.str (togglePolarity s)))
          | _ => Except.error "TypeError"
        else Except.ok (dSet m "PhaseEncodingDirection" ax)
  else Except.ok m

/-- `update_dwi_json` of bidsify_qsiprep.py (and, with identical text,
bidsify_qsiprep_func.py), as a pure function on the loaded record; the
surrounding load/save I/O is carried by the staging model below. -/
def update_dwi_json (m : Dict) (reverse_pedir : Bool) : Except String Dict :=
  derive_ped (migrate_readout m) reverse_pedir

/-- `update_fmap_json` of bidsify_qsiprep.py: additionally overwrites the
IntendedFor field with the supplied list before the direction block. -/
def update_fmap_json (m : Dict) (reverse_pedir : Bool)
    (intended_files : List String) : Except String Dict :=
  derive_ped (dSet (migrate_readout m) "IntendedFor" (.arr intended_files))
    reverse_pedir

/-- `update_dwi_json` of bidsify_qsiprep_draft.py: never raises; writes the
caller-supplied direction only when one is given and truthy. -/
def update_dwi_json_draft (m : Dict) (ped : Option String) : Dict :=
  let m1 := migrate_readout m
  if pedMissing m1 then
    match ped with
    | some p => if p = "" then m1 else dSet m1 "PhaseEncodingDirection" (.str p)
    | none => m1
  else m1

/-- `update_fmap_json` of bidsify_qsiprep_draft.py. -/
def update_fmap_json_draft (m : Dict) (ped : Option String)
    (intended_files : List String) : Dict :=
  let m1 := dSet (migrate_readout m) "IntendedFor" (.arr intended_files)
  if pedMissing m1 then
    match ped with
    | some p => if p = "" then m1 else dSet m1 "PhaseEncodingDirection" (.str p)
    | none => m1
  else m1

theorem dGet_dSet_self (m : Dict) (k : String) (v : JVal) :
    dGet (dSet m k v) k = some v := by
  induction m with
  | nil => simp [dSet, dGet]
  | cons p t ih =>
    obtain ⟨k1, v1⟩ := p
    by_cases h : k1 = k
    · subst h; simp [dSet, dGet]
    · simp [dSet, dGet, h, ih]

theorem dGet_dSet_ne (m : Dict) (k k2 : String) (v : JVal) (h : k2 ≠ k) :
    dGet (dSet m k v) k2 = dGet m k2 := by
  induction m with
  | nil => simp [dSet, dGet, Ne.symm h]
  | cons p t ih =>
    obtain ⟨k1, v1⟩ := p
    by_cases h1 : k1 = k
    · subst h1
      simp [dSet, dGet, Ne.symm h, h]
    · by_cases h2 : k1 = k2
      · subst h2; simp [dSet, dGet, h1]
      · simp [dSet, dGet, h1, h2, ih]

theorem dGet_dDel_self (m : Dict) (k : String) : dGet (dDel m k) k = none := by
  induction m with
  | nil => simp [dDel, dGet]
  | cons p t ih =>
    obtain ⟨k1, v1⟩ := p
    by_cases h : k1 = k
    · subst h
      simpa [dDel, dGet] using ih
    · simpa [dDel, dGet, h] using ih

theorem dGet_dDel_ne (m : Dict) (k k2 : String) (h : k2 ≠ k) :
    dGet (dDel m k) k2 = dGet m k2 := by
  induction m with
  | nil => simp [dDel, dGet]
  | cons p t ih =>
    obtain ⟨k1, v1⟩ := p
    by_cases h1 : k1 = k
    · subst h1
      simpa [dDel, dGet, Ne.symm h] using ih
    · by_cases h2 : k1 = k2
      · subst h2; simp [dDel, dGet, h1, dGet.eq_def]
      · simpa [dDel, dGet, h1, h2] using ih

/-- The readout-time migration never touches keys other than the two
readout-time fields. -/
theorem dGet_migrate_other (m : Dict) (k : String)
    (h1 : k ≠ "EstimatedTotalReadoutTime") (h2 : k ≠ "TotalReadoutTime") :
    dGet (migrate_readout m) k = dGet m k := by
  unfold migrate_readout
  cases hE : dGet m "EstimatedTotalReadoutTime" with
  | none => rfl
  | some e =>
    by_cases hF : falsyOpt (dGet m "TotalReadoutTime")
    · simp only [hF, if_pos]
      rw [dGet_dDel_ne _ _ _ h1, dGet_dSet_ne _ _ _ _ h2]
    · simp only [hF, if_neg, Bool.false_eq_true, not_false_iff]
      rw [dGet_dDel_ne _ _ _ h1]

/-- After migration the deprecated key is always gone. -/
theorem migrate_est_none (m : Dict) :
    dGet (migrate_readout m) "EstimatedTotalReadoutTime" = none := by
  unfold migrate_readout
  cases hE : dGet m "EstimatedTotalReadoutTime" with
  | none => exact hE
  | some e =>
    by_cases hF : falsyOpt (dGet m "TotalReadoutTime") <;>
      simp [hF, dGet_dDel_self]

/-- A falsy-or-absent target receives the deprecated value. -/
theorem migrate_trt_falsy (m : Dict) (e : JVal)
    (hE : dGet m "EstimatedTotalReadoutTime" = some e)
    (hF : falsyOpt (dGet m "TotalReadoutTime") = true) :
    dGet (migrate_readout m) "TotalReadoutTime" = some e := by
  unfold migrate_readout
  rw [hE]
  simp only [hF, if_pos]
  rw [dGet_dDel_ne, dGet_dSet_self]
  decide

/-- A truthy target is kept. -/
theorem migrate_trt_keep (m : Dict) (e : JVal)
    (hE : dGet m "EstimatedTotalReadoutTime" = some e)
    (hF : falsyOpt (dGet m "TotalReadoutTime") = false) :
    dGet (migrate_readout m) "TotalReadoutTime" = dGet m "TotalReadoutTime" := by
  unfold migrate_readout
  rw [hE]
  simp only [hF, Bool.false_eq_true, if_neg, not_false_iff]
  rw [dGet_dDel_ne]
  decide

/-- The direction-derivation block never touches keys other than the
direction field. -/
theorem derive_ped_other (m m2 : Dict) (r : Bool) (k : String)
    (h : k ≠ "PhaseEncodingDirection") (hd : derive_ped m r = Except.ok m2) :
    dGet m2 k = dGet m k := by
  unfold derive_ped at hd
  by_cases hp : pedMissing m = true
  · rw [if_pos hp] at hd
    by_cases ha : peaMissing m = true
    · rw [if_pos ha] at hd; exact absurd hd (by simp)
    · rw [if_neg ha] at hd
      cases hA : dGet m "PhaseEncodingAxis" with
      | none => rw [hA] at hd; exact absurd hd (by simp)
      | some ax =>
        rw [hA] at hd
        dsimp only [] at hd
        cases r with
        | false =>
          rw [if_neg (by simp)] at hd
          injection hd with h2
          rw [← h2, dGet_dSet_ne _ _ _ _ h]
        | true =>
          rw [if_pos rfl] at hd
          cases ax with
          | str s =>
            injection hd with h2
            rw [← h2, dGet_dSet_ne _ _ _ _ h, dGet_dSet_ne _ _ _ _ h]
          | null => exact absurd hd (by simp)
          | bool b => exact absurd hd (by simp)
          | num q => exact absurd hd (by simp)
          | arr xs => exact absurd hd (by simp)
  · rw [if_neg hp] at hd
    injection hd with h2
    rw [h2]

/-- C2 counterexample: the claim's concrete example fails on the cited
strict normalizer.  A record containing only
`EstimatedTotalReadoutTime: 0.05` has neither a direction nor an axis
field, so `update_dwi_json` of bidsify_qsiprep.py raises the
unresolvable-direction exception instead of yielding a normalized record:
nothing is saved. -/
theorem c2_counterexample :
    update_dwi_json [("EstimatedTotalReadoutTime", JVal.num 0.05)] false
      = Except.error axisErr := by
  rfl

/-- C2 (amended): whenever the deprecated readout-time field is present and
normalization succeeds, its value has been copied onto a falsy-or-absent
TotalReadoutTime (a truthy target is kept), and the deprecated key has
been removed unconditionally.  The claim's concrete record yields
`TotalReadoutTime: 0.05` and no deprecated key under the draft normalizer,
or under the strict normalizer once the record also carries a usable
direction field; with only the deprecated field present the strict
normalizer instead fails with the unresolvable-direction error after
performing the migration. -/
theorem c2_readout_migration :
    (∀ (m : Dict) (e : JVal) (r : Bool) (m2 : Dict),
      dGet m "EstimatedTotalReadoutTime" = some e →
      update_dwi_json m r = Except.ok m2 →
      dGet m2 "EstimatedTotalReadoutTime" = none ∧
      (falsyOpt (dGet m "TotalReadoutTime") = true →
        dGet m2 "TotalReadoutTime" = some e) ∧
      (falsyOpt (dGet m "TotalReadoutTime") = false →
        dGet m2 "TotalReadoutTime" = dGet m "TotalReadoutTime")) ∧
    update_dwi_json
        [("EstimatedTotalReadoutTime", JVal.num 0.05),
         ("PhaseEncodingDirection", JVal.str "j")] false
      = Except.ok
        [("PhaseEncodingDirection", JVal.str "j"),
         ("TotalReadoutTime", JVal.num 0.05)] ∧
    update_dwi_json_draft [("EstimatedTotalReadoutTime", JVal.num 0.05)] none
      = [("TotalReadoutTime", JVal.num 0.05)] := by
  refine ⟨?_, by rfl, by rfl⟩
  intro m e r m2 hE hok
  unfold update_dwi_json at hok
  refine ⟨?_, ?_, ?_⟩
  · rw [derive_ped_other _ _ _ _ (by decide) hok, migrate_est_none]
  · intro hF
    rw [derive_ped_other _ _ _ _ (by decide) hok, migrate_trt_falsy m e hE hF]
  · intro hF
    rw [derive_ped_other _ _ _ _ (by decide) hok, migrate_trt_keep m e hE hF]

/-- Witness for C2 at the record with the deprecated field and a usable
direction. -/
theorem c2_readout_migration_witness :
    update_dwi_json
        [("EstimatedTotalReadoutTime", JVal.num 0.05),
         ("PhaseEncodingDirection", JVal.str "j")] false
      = Except.ok
        [("PhaseEncodingDirection", JVal.str "j"),
         ("TotalReadoutTime", JVal.num 0.05)] ∧
    dGet [("PhaseEncodingDirection", JVal.str "j"),
          ("TotalReadoutTime", JVal.num 0.05)] "EstimatedTotalReadoutTime"
      = none :=
  ⟨by rfl,
    (c2_readout_migration.1
      [("EstimatedTotalReadoutTime", JVal.num 0.05),
       ("PhaseEncodingDirection", JVal.str "j")]
      (JVal.num 0.05) false
      [("PhaseEncodingDirection", JVal.str "j"),
       ("TotalReadoutTime", JVal.num 0.05)]
      (by rfl) (by rfl)).1⟩

/-- C3 counterexample: the claim quantifies over every pipeline variant,
but the draft normalizer (`update_dwi_json` of bidsify_qsiprep_draft.py)
never fails on a record with neither a direction nor an axis field: with
no caller-supplied direction it silently leaves the field absent, and with
one it silently writes it. -/
theorem c3_counterexample :
    update_dwi_json_draft [] none = [] ∧
    update_dwi_json_draft [] (some "j-")
      = [("PhaseEncodingDirection", JVal.str "j-")] := by
  exact ⟨by rfl, by rfl⟩

/-- C3 (amended): in the strict pipeline variants (bidsify_qsiprep.py and
bidsify_qsiprep_func.py) a record whose direction and axis fields are both
absent or blank makes the normalizer fail with the
unresolvable-direction exception, for both the dwi and the fmap entry
points; the draft variant instead never fails: with no caller-supplied
direction it returns the migrated record with the direction field still
absent or blank. -/
theorem c3_unresolvable_direction :
    ∀ (m : Dict) (r : Bool) (fs : List String),
      pedMissing m = true → peaMissing m = true →
      update_dwi_json m r = Except.error axisErr ∧
      update_fmap_json m r fs = Except.error axisErr ∧
      update_dwi_json_draft m none = migrate_readout m := by
  intro m r fs hp ha
  have hpm : pedMissing (migrate_readout m) = true := by
    unfold pedMissing at hp ⊢
    rw [dGet_migrate_other _ _ (by decide) (by decide)]
    exact hp
  have ham : peaMissing (migrate_readout m) = true := by
    unfold peaMissing at ha ⊢
    rw [dGet_migrate_other _ _ (by decide) (by decide)]
    exact ha
  refine ⟨?_, ?_, ?_⟩
  · unfold update_dwi_json derive_ped
    rw [if_pos hpm, if_pos ham]
  · unfold update_fmap_json derive_ped
    have hpi : pedMissing
        (dSet (migrate_readout m) "IntendedFor" (JVal.arr fs)) = true := by
      unfold pedMissing at hpm ⊢
      rw [dGet_dSet_ne _ _ _ _ (by decide)]
      exact hpm
    have hai : peaMissing
        (dSet (migrate_readout m) "IntendedFor" (JVal.arr fs)) = true := by
      unfold peaMissing at ham ⊢
      rw [dGet_dSet_ne _ _ _ _ (by decide)]
      exact ham
    rw [if_pos hpi, if_pos hai]
  · unfold update_dwi_json_draft
    rw [if_pos hpm]

/-- Witness for C3 at the empty record. -/
theorem c3_unresolvable_direction_witness :
    update_dwi_json [] false = Except.error axisErr ∧
    update_fmap_json [] false [] = Except.error axisErr ∧
    update_dwi_json_draft [] none = migrate_readout [] :=
  c3_unresolvable_direction [] false [] (by rfl) (by rfl)

/-- C9: a present but falsy TotalReadoutTime (0, null, the empty string,
false or an empty list) is overwritten with the estimated value just like
an absent one, and the deprecated key is removed; in particular the strict
normalizer maps a record with `TotalReadoutTime: 0` next to
`EstimatedTotalReadoutTime: 0.05` to one with `TotalReadoutTime: 0.05`. -/
theorem c9_falsy_target_overwritten :
    (∀ (m : Dict) (e v : JVal) (r : Bool) (m2 : Dict),
      dGet m "EstimatedTotalReadoutTime" = some e →
      dGet m "TotalReadoutTime" = some v →
      falsy v = true →
      update_dwi_json m r = Except.ok m2 →
      dGet m2 "TotalReadoutTime" = some e ∧
      dGet m2 "EstimatedTotalReadoutTime" = none) ∧
    update_dwi_json
        [("EstimatedTotalReadoutTime", JVal.num 0.05),
         ("TotalReadoutTime", JVal.num 0),
         ("PhaseEncodingDirection", JVal.str "j")] false
      = Except.ok
        [("TotalReadoutTime", JVal.num 0.05),
         ("PhaseEncodingDirection", JVal.str "j")] := by
  refine ⟨?_, by rfl⟩
  intro m e v r m2 hE hT hFv hok
  unfold update_dwi_json at hok
  have hF : falsyOpt (dGet m "TotalReadoutTime") = true := by
    rw [hT]; exact hFv
  constructor
  · rw [derive_ped_other _ _ _ _ (by decide) hok, migrate_trt_falsy m e hE hF]
  · rw [derive_ped_other _ _ _ _ (by decide) hok, migrate_est_none]

/-- Witness for C9 at the record with a present-but-zero target. -/
theorem c9_falsy_target_overwritten_witness :
    falsy (JVal.num 0) = true ∧
    dGet [("TotalReadoutTime", JVal.num 0.05),
          ("PhaseEncodingDirection", JVal.str "j")] "TotalReadoutTime"
      = some (JVal.num 0.05) :=
  ⟨by rfl,
    (c9_falsy_target_overwritten.1
      [("EstimatedTotalReadoutTime", JVal.num 0.05),
       ("TotalReadoutTime", JVal.num 0),
       ("PhaseEncodingDirection", JVal.str "j")]
      (JVal.num 0.05) (JVal.num 0) false
      [("TotalReadoutTime", JVal.num 0.05),
       ("PhaseEncodingDirection", JVal.str "j")]
      (by rfl) (by rfl) (by rfl) (by rfl)).1⟩

/-- Python 3 `round` (banker's rounding, half to even) followed by `int`,
on an exact rational: the fractional part `q - floor q` is compared with
one half through the equivalent integer comparison
`2 * num q` versus `(2 * floor q + 1) * den q` (the denominator is
positive), yielding the floor below one half, the ceiling above it, and
the even neighbour on an exact half. -/
def pyround (q : ℚ) : ℤ :=
  let f : ℤ := q.floor
  let lhs : ℤ := 2 * q.num
  let rhs : ℤ := (2 * f + 1) * (q.den : ℤ)
  if lhs < rhs then f
  else if rhs < lhs then f + 1
  else if f % 2 = 0 then f else f + 1

/-- Scan of a key list, keeping the entry with the strictly largest
multiplicity in `l`; on equal counts the earlier entry wins. -/
def pickMax (l : List ℤ) : List ℤ → Option ℤ
  | [] => none
  | k :: ks =>
    match pickMax l ks with
    | none => some k
    | some b => if l.count b > l.count k then some b else some k

/-- `Counter(nz).most_common(1)[0][0]` of CPython: the most frequent value;
`heapq.nlargest` breaks count ties in favour of the key inserted first
into the Counter, i.e. the value occurring first in the scanned list.
Scanning the raw list instead of the distinct-key list returns the same
element, because duplicate keys tie with themselves and the earlier
duplicate wins. -/
def most_common1 (l : List ℤ) : Option ℤ := pickMax l l

/-- The `[int(round(v)) for v in vals if v > 10]` comprehension of
`infer_primary_bval_from_bvalfile`, on the parsed whitespace-separated
numbers of the gradient-value file (text-to-float parsing is carried
exactly by the rational values). -/
def nzOf (vals : List ℚ) : List ℤ :=
  (vals.filter (fun v => 10 < v)).map pyround

/-- `infer_primary_bval_from_bvalfile` of bidsify_qsiprep.py and
bidsify_qsiprep_draft.py (identical text), on the parsed contents of an
existing gradient-value file: "0" when nothing survives the near-zero
cut (`most_common1` is none exactly on the empty list), else the decimal
string of the most common value.  A missing file or a parse failure
returns Python None and is handled by the caller, outside this model. -/
def infer_primary_bval (vals : List ℚ) : String :=
  match most_common1 (nzOf vals) with
  | none => "0"
  | some b => toString b

/-- Like `pickMax`, but breaking count ties by the numerically smallest
value. -/
def pickMaxSmall (l : List ℤ) : List ℤ → Option ℤ
  | [] => none
  | k :: ks =>
    match pickMaxSmall l ks with
    | none => some k
    | some b =>
      if l.count b > l.count k ∨ (l.count b = l.count k ∧ b < k) then some b
      else some k

/-- Modelled from the claim's words, for refinement comparison with
`infer_primary_bval`: round each parsed value to the nearest integer,
discard values at or below the near-zero threshold, and return the most
frequent remaining value, frequency ties broken by the numerically
smallest value. -/
def infer_primary_bval_claimed (vals : List ℚ) : String :=
  let nz := (vals.map pyround).filter (fun z => 10 < z)
  match pickMaxSmall nz nz with
  | none => "0"
  | some b => toString b

theorem pickMax_none {l ks : List ℤ} (h : pickMax l ks = none) : ks = [] := by
  cases ks with
  | nil => rfl
  | cons k t =>
    unfold pickMax at h
    cases h2 : pickMax l t with
    | none => rw [h2] at h; cases h
    | some b =>
      rw [h2] at h
      dsimp only [] at h
      split at h <;> exact Option.noConfusion h

theorem pickMax_spec (l : List ℤ) :
    ∀ (ks : List ℤ) (b : ℤ), pickMax l ks = some b →
    ∃ pre post, ks = pre ++ b :: post ∧
      (∀ x ∈ pre, l.count x < l.count b) ∧
      (∀ x ∈ post, l.count x ≤ l.count b) := by
  intro ks
  induction ks with
  | nil => intro b h; cases h
  | cons k t ih =>
    intro b h
    unfold pickMax at h
    cases h2 : pickMax l t with
    | none =>
      rw [h2] at h
      dsimp only [] at h
      injection h with hb
      subst hb
      have ht : t = [] := pickMax_none h2
      subst ht
      exact ⟨[], [], rfl, by simp, by simp⟩
    | some b2 =>
      rw [h2] at h
      dsimp only [] at h
      obtain ⟨pre2, post2, hks2, hpre2, hpost2⟩ := ih b2 h2
      by_cases hc : l.count b2 > l.count k
      · rw [if_pos hc] at h
        injection h with hb
        subst hb
        refine ⟨k :: pre2, post2, by rw [hks2]; rfl, ?_, hpost2⟩
        intro x hx
        rcases List.mem_cons.mp hx with hxk | hxp
        · subst hxk; exact hc
        · exact hpre2 x hxp
      · rw [if_neg hc] at h
        injection h with hb
        subst hb
        push_neg at hc
        refine ⟨[], t, by simp, by simp, ?_⟩
        intro x hx
        rw [hks2] at hx
        rcases List.mem_append.mp hx with hxp | hxm
        · exact le_trans (le_of_lt (hpre2 x hxp)) hc
        · rcases List.mem_cons.mp hxm with hxb | hxq
          · subst hxb; exact hc
          · exact le_trans (hpost2 x hxq) hc

/-- `most_common1` returns a member of maximal multiplicity whose first
occurrence is no later than that of any count-tied member. -/
theorem most_common1_spec (l : List ℤ) (b : ℤ) (h : most_common1 l = some b) :
    b ∈ l ∧ (∀ x ∈ l, l.count x ≤ l.count b) ∧
    (∀ x ∈ l, l.count x = l.count b → l.indexOf b ≤ l.indexOf x) := by
  obtain ⟨pre, post, hks, hpre, hpost⟩ := pickMax_spec l l b h
  have hbpre : b ∉ pre := fun hb => absurd (hpre b hb) (lt_irrefl _)
  refine ⟨?_, ?_, ?_⟩
  · rw [hks]
    exact List.mem_append.mpr (Or.inr (List.mem_cons_self _ _))
  · intro x hx
    rw [hks] at hx
    rcases List.mem_append.mp hx with hxp | hxm
    · exact le_of_lt (hpre x hxp)
    · rcases List.mem_cons.mp hxm with hxb | hxq
      · subst hxb; exact le_refl _
      · exact hpost x hxq
  · intro x hx hcx
    by_cases hxb : x = b
    · subst hxb; exact le_refl _
    · have hxpre : x ∉ pre := fun hxp => by
        have hlt := hpre x hxp
        rw [hcx] at hlt
        exact lt_irrefl _ hlt
      rw [hks, List.indexOf_append_of_not_mem hbpre,
        List.indexOf_append_of_not_mem hxpre, List.indexOf_cons_self]
      exact Nat.add_le_add_left (Nat.zero_le _) _

/-- C4 counterexample: on the gradient values `[2000, 2000, 1000, 1000]`
the two shells tie in frequency; CPython's Counter returns the
first-occurring value 2000, not the numerically smallest 1000 demanded by
the claim's tie-breaking rule. -/
theorem c4_counterexample :
    infer_primary_bval [2000, 2000, 1000, 1000] = "2000" ∧
    infer_primary_bval_claimed [2000, 2000, 1000, 1000] = "1000" ∧
    infer_primary_bval [2000, 2000, 1000, 1000]
      ≠ infer_primary_bval_claimed [2000, 2000, 1000, 1000] := by
  refine ⟨by rfl, by rfl, by decide⟩

/-- C4 (amended): the inferred primary shell parses the gradient values,
keeps values strictly above the near-zero threshold 10 rounded to the
nearest integer, and returns the most frequent remaining value, with
frequency ties broken by the value occurring first in the file (CPython
Counter behaviour), not by the numerically smallest value; the values
`[0, 0, 995, 1005, 1000, 1000]` yield "1000", and when no values remain
the result is "0". -/
theorem c4_shell_inference :
    infer_primary_bval [0, 0, 995, 1005, 1000, 1000] = "1000" ∧
    (∀ vals : List ℚ, nzOf vals = [] → infer_primary_bval vals = "0") ∧
    (∀ (vals : List ℚ) (b : ℤ),
      most_common1 (nzOf vals) = some b →
      infer_primary_bval vals = toString b ∧
      b ∈ nzOf vals ∧
      (∀ x ∈ nzOf vals, (nzOf vals).count x ≤ (nzOf vals).count b) ∧
      (∀ x ∈ nzOf vals, (nzOf vals).count x = (nzOf vals).count b →
        (nzOf vals).indexOf b ≤ (nzOf vals).indexOf x)) := by
  refine ⟨by rfl, ?_, ?_⟩
  · intro vals h
    unfold infer_primary_bval
    rw [h]
    rfl
  · intro vals b h
    obtain ⟨h1, h2, h3⟩ := most_common1_spec _ b h
    refine ⟨?_, h1, h2, h3⟩
    unfold infer_primary_bval
    rw [h]

/-- Witness for C4 on the tied input: the code's answer is the
first-occurring shell, which carries maximal multiplicity. -/
theorem c4_shell_inference_witness :
    most_common1 (nzOf [2000, 2000, 1000, 1000]) = some 2000 ∧
    infer_primary_bval [2000, 2000, 1000, 1000] = toString (2000 : ℤ) ∧
    (2000 : ℤ) ∈ nzOf [2000, 2000, 1000, 1000] :=
  ⟨by rfl,
    (c4_shell_inference.2.2 [2000, 2000, 1000, 1000] 2000 (by rfl)).1,
    (c4_shell_inference.2.2 [2000, 2000, 1000, 1000] 2000 (by rfl)).2.1⟩

/-- The character class `[A-Za-z]` of the token pattern's capture group. -/
def pyAlpha (c : Char) : Bool :=
  (65 ≤ c.toNat && c.toNat ≤ 90) || (97 ≤ c.toNat && c.toNat ≤ 122)

/-- A match of the case-insensitive pattern
`(?:^|[_-])dir-([A-Za-z]{2})(?:[_-]|$)` of DIR_TOKEN_RE whose literal
`dir-` starts at index `i` of the name: preceded by a separator or the
start of the string, then `dir-` (any case), two ASCII letters, and a
separator or the end; returns the captured letters. -/
def dirTokenAt (s : List Char) (i : ℕ) : Option (Char × Char) :=
  match (s.drop i).take 6 with
  | [c0, c1, c2, c3, a, b] =>
    if c0.toLower = 'd' ∧ c1.toLower = 'i' ∧ c2.toLower = 'r' ∧ c3 = '-' ∧
        pyAlpha a ∧ pyAlpha b ∧
        (i = 0 ∨ s.get? (i - 1) = some '_' ∨ s.get? (i - 1) = some '-') ∧
        (s.get? (i + 6) = none ∨ s.get? (i + 6) = some '_' ∨
          s.get? (i + 6) = some '-')
    then some (a, b) else none
  | _ => none

/-- Scan for the leftmost token match, one candidate start index per unit
of fuel (`re.search` returns the leftmost match). -/
def findTokFrom (s : List Char) : ℕ → ℕ → Option (Char × Char)
  | _, 0 => none
  | i, fuel + 1 =>
    match dirTokenAt s i with
    | some r => some r
    | none => findTokFrom s (i + 1) fuel

/-- `DIR_TOKEN_RE.search(name)`: every start index of the name is a
candidate. -/
def findDirToken (s : List Char) : Option (Char × Char) :=
  findTokFrom s 0 (s.length + 1)

/-- `pat in low`: contiguous-segment containment. -/
def containsSeg (l pat : List Char) : Bool :=
  (List.range (l.length + 1)).any (fun i => (l.drop i).take pat.length == pat)

/-- The ALT_DIR_HINTS fallback: hints are tried in dict insertion order
against the lowercased name padded with `_` on both sides; the first
containment wins. -/
def hintDir (name : List Char) : Option String :=
  let low := '_' :: name.map Char.toLower ++ ['_']
  if containsSeg low "app".data then some "AP"
  else if containsSeg low "apa".data then some "PA"
  else if containsSeg low "_ap_".data then some "AP"
  else if containsSeg low "-ap-".data then some "AP"
  else if containsSeg low "_pa_".data then some "PA"
  else if containsSeg low "-pa-".data then some "PA"
  else none

/-- `find_dir_from_name`, on the basename of the path: the explicit token
pattern is authoritative and its capture is uppercased; only when it has
no match anywhere are the hints consulted. -/
def find_dir_from_name (name : String) : Option String :=
  match findDirToken name.data with
  | some (a, b) => some (String.mk [a.toUpper, b.toUpper])
  | none => hintDir name.data

theorem dirTokenAt_some_lt {s : List Char} {i : ℕ} {r : Char × Char}
    (h : dirTokenAt s i = some r) : i < s.length := by
  by_contra hge
  push_neg at hge
  have hd : s.drop i = [] := List.drop_eq_nil_of_le hge
  unfold dirTokenAt at h
  rw [hd] at h
  exact Option.noConfusion h

theorem findTokFrom_eq (s : List Char) (i : ℕ) (r : Char × Char)
    (hi : dirTokenAt s i = some r)
    (hnone : ∀ j, j < i → dirTokenAt s j = none) :
    ∀ (fuel start : ℕ), start ≤ i → i < start + fuel →
      findTokFrom s start fuel = some r := by
  intro fuel
  induction fuel with
  | zero => intro start h1 h2; omega
  | succ f ih =>
    intro start h1 h2
    by_cases hs : start = i
    · subst hs
      unfold findTokFrom
      rw [hi]
    · have hlt : start < i := lt_of_le_of_ne h1 hs
      unfold findTokFrom
      rw [hnone start hlt]
      exact ih (start + 1) hlt (by omega)

/-- C5: for every filename in which the explicit `dir-XX` token pattern
matches at exactly one position, the classifier returns the two captured
letters uppercased, regardless of any hint substrings also present in the
name (the hint table is only consulted when the token pattern matches
nowhere). -/
theorem c5_explicit_token_authoritative :
    ∀ (name : String) (i : ℕ) (a b : Char),
      dirTokenAt name.data i = some (a, b) →
      (∀ j, j ≤ name.data.length → j ≠ i → dirTokenAt name.data j = none) →
      find_dir_from_name name = some (String.mk [a.toUpper, b.toUpper]) := by
  intro name i a b hi hu
  have hilt : i < name.data.length := dirTokenAt_some_lt hi
  have hnone : ∀ j, j < i → dirTokenAt name.data j = none := by
    intro j hj
    exact hu j (by omega) (by omega)
  unfold find_dir_from_name findDirToken
  rw [findTokFrom_eq name.data i (a, b) hi hnone (name.data.length + 1) 0
    (Nat.zero_le _) (by omega)]

/-- Witness for C5 on a name that carries both an explicit token `dir-pa`
and the conflicting hint substring `app`: the token wins. -/
theorem c5_explicit_token_authoritative_witness :
    find_dir_from_name "b1000app_dir-pa_x"
      = some (String.mk [Char.toUpper 'p', Char.toUpper 'a']) :=
  c5_explicit_token_authoritative "b1000app_dir-pa_x" 9 'p' 'a'
    (by decide) (by decide)

/-- Decimal digits of a natural number, most significant first; the fuel
(the number itself bounds the digit count) keeps the recursion
structural. -/
def natReprAux : ℕ → ℕ → List Char
  | 0, _ => []
  | fuel + 1, n =>
    if n = 0 then [] else natReprAux fuel (n / 10) ++ [Nat.digitChar (n % 10)]

/-- `str(n)` for a natural number. -/
def natRepr (n : ℕ) : List Char :=
  if n = 0 then ['0'] else natReprAux n n

/-- `f"{n:02d}"`: the decimal digits, left-padded with one zero below
ten. -/
def fmt2 (n : ℕ) : List Char :=
  if n < 10 then '0' :: natRepr n else natRepr n

/-- The sequential acquisition token of the strict pipelines. -/
def acqTok (n : ℕ) : String := String.mk (fmt2 n)

/-- The numeric value read back from a most-significant-first digit
string; a left inverse of the formatters. -/
def digitVal (l : List Char) : ℕ :=
  l.foldl (fun acc c => acc * 10 + (c.toNat - 48)) 0

theorem digitVal_append (l : List Char) (c : Char) :
    digitVal (l ++ [c]) = digitVal l * 10 + (c.toNat - 48) := by
  unfold digitVal
  rw [List.foldl_append]
  rfl

theorem digitChar_val : ∀ d : ℕ, d < 10 → (Nat.digitChar d).toNat - 48 = d := by
  decide

theorem natReprAux_val : ∀ fuel n : ℕ, n ≤ fuel → digitVal (natReprAux fuel n) = n := by
  intro fuel
  induction fuel with
  | zero =>
    intro n h
    have : n = 0 := Nat.le_zero.mp h
    subst this
    rfl
  | succ f ih =>
    intro n h
    unfold natReprAux
    by_cases h0 : n = 0
    · subst h0; rfl
    · rw [if_neg h0, digitVal_append,
        ih (n / 10) (by
          have : n / 10 < n := Nat.div_lt_self (Nat.pos_of_ne_zero h0) (by norm_num)
          omega),
        digitChar_val (n % 10) (Nat.mod_lt _ (by norm_num))]
      omega

theorem natRepr_val (n : ℕ) : digitVal (natRepr n) = n := by
  unfold natRepr
  by_cases h0 : n = 0
  · subst h0; rfl
  · rw [if_neg h0]
    exact natReprAux_val n n (le_refl n)

theorem fmt2_val (n : ℕ) : digitVal (fmt2 n) = n := by
  unfold fmt2
  by_cases h : n < 10
  · rw [if_pos h]
    show digitVal (natRepr n) = n
    exact natRepr_val n
  · rw [if_neg h]
    exact natRepr_val n

theorem fmt2_inj (a b : ℕ) (h : fmt2 a = fmt2 b) : a = b := by
  have h2 := congrArg digitVal h
  rwa [fmt2_val, fmt2_val] at h2

/-- `strict_dwi_bids_name` of bidsify_qsiprep.py and
bidsify_qsiprep_func.py. -/
def strict_dwi_bids_name (subj acq_token dir_token suffix : String) : String :=
  subj ++ "_acq-" ++ acq_token ++ "_dir-" ++ dir_token ++ "_dwi" ++ suffix

/-- `strict_fmap_bids_name` of bidsify_qsiprep.py. -/
def strict_fmap_bids_name (subj acq_token dir_token suffix : String) : String :=
  subj ++ "_acq-" ++ acq_token ++ "_dir-" ++ dir_token ++ "_epi" ++ suffix

/-- `strict_t1w_bids_name`. -/
def strict_t1w_bids_name (subj suffix : String) : String :=
  subj ++ "_T1w" ++ suffix

/-- `strict_dwi_bids_name` of bidsify_qsiprep_draft.py: the acquisition
token is `b` plus the inferred shell value. -/
def draft_dwi_bids_name (subj bval dir_token suffix : String) : String :=
  subj ++ "_acq-b" ++ bval ++ "_dir-" ++ dir_token ++ "_dwi" ++ suffix

/-- Staged output files: verbatim byte payloads, gradient-value contents
(represented by their parsed numbers), or metadata records. -/
inductive FileC where
  | raw (content : String) : FileC
  | nums (vals : List ℚ) : FileC
  | json (m : Dict) : FileC
deriving DecidableEq, Repr

/-- The output tree as a path-to-content map. -/
abbrev FS := List (String × FileC)

/-- `copy_file` / `save_json` to a destination path: an existing file at
the path is silently replaced (`shutil.copy2` and `open("w")` both
overwrite). -/
def fsWrite : FS → String → FileC → FS
  | [], p, c => [(p, c)]
  | (q, d) :: t, p, c =>
    if q = p then (p, c) :: t else (q, d) :: fsWrite t p c

/-- The content visible at a path. -/
def fsGet : FS → String → Option FileC
  | [], _ => none
  | (q, d) :: t, p => if q = p then some d else fsGet t p

theorem fsGet_fsWrite_self (fs : FS) (p : String) (c : FileC) :
    fsGet (fsWrite fs p c) p = some c := by
  induction fs with
  | nil => simp [fsWrite, fsGet]
  | cons e t ih =>
    obtain ⟨q, d⟩ := e
    by_cases h : q = p
    · subst h; simp [fsWrite, fsGet]
    · simp [fsWrite, fsGet, h, ih]

theorem fsGet_fsWrite_ne (fs : FS) (p p2 : String) (c : FileC) (h : p2 ≠ p) :
    fsGet (fsWrite fs p c) p2 = fsGet fs p2 := by
  induction fs with
  | nil => simp [fsWrite, fsGet, Ne.symm h]
  | cons e t ih =>
    obtain ⟨q, d⟩ := e
    by_cases h1 : q = p
    · subst h1
      simp [fsWrite, fsGet, Ne.symm h, h]
    · by_cases h2 : q = p2
      · subst h2; simp [fsWrite, fsGet, h1]
      · simp [fsWrite, fsGet, h1, h2, ih]

/-- One staged diffusion input of the strict pipeline: the payload image
is mandatory, gradient files are copied when present, the metadata file
may be missing (a hard failure).  `base` is the input basename, used only
in the error text. -/
structure DwiSrc where
  base : String
  payload : String
  bval : Option String
  bvec : Option String
  json : Option Dict
deriving DecidableEq, Repr

/-- One staged reverse-reference input of the strict pipeline: the fmap
loop of `bidsify` copies only the image and the metadata file (its FIXME
notes that gradient files are not carried over). -/
structure FmapSrc where
  base : String
  payload : String
  json : Option Dict
deriving DecidableEq, Repr

/-- The DWI loop of `bidsify` in bidsify_qsiprep.py (lines 228-244): for
each image in order, bump the shared counter, copy the payload under the
canonical name with direction token `fwd`, copy present gradient files,
fail when the metadata file is missing, copy it then rewrite it in place
with `update_dwi_json(..., False)` (on a rewrite failure the copied,
unnormalized metadata remains at the destination), and append the output
relative path to the cross-reference accumulator.  Returns the final
counter and accumulator. -/
def stageDwiList (subj : String) :
    ℕ → List DwiSrc → FS → List String → FS × Except String (ℕ × List String)
  | cnt, [], fs, intended => (fs, Except.ok (cnt, intended))
  | cnt, s :: rest, fs, intended =>
    let c := cnt + 1
    let outName := strict_dwi_bids_name subj (acqTok c) "fwd" ".nii.gz"
    let fs1 := fsWrite fs ("dwi/" ++ outName) (FileC.raw s.payload)
    let fs2 := match s.bval with
      | some t =>
        fsWrite fs1 ("dwi/" ++ strict_dwi_bids_name subj (acqTok c) "fwd" ".bval")
          (FileC.raw t)
      | none => fs1
    let fs3 := match s.bvec with
      | some t =>
        fsWrite fs2 ("dwi/" ++ strict_dwi_bids_name subj (acqTok c) "fwd" ".bvec")
          (FileC.raw t)
      | none => fs2
    match s.json with
    | none =>
      (fs3, Except.error ("Source json not found for " ++ s.base ++ ".json"))
    | some m =>
      let jName := "dwi/" ++ strict_dwi_bids_name subj (acqTok c) "fwd" ".json"
      let fs4 := fsWrite fs3 jName (FileC.json m)
      match update_dwi_json m false with
      | Except.error e => (fs4, Except.error e)
      | Except.ok m2 =>
        stageDwiList subj c rest (fsWrite fs4 jName (FileC.json m2))
          (intended ++ ["dwi/" ++ outName])

/-- The fmap loop of `bidsify` in bidsify_qsiprep.py (lines 250-263): the
counter continues from the DWI loop (deliberately not reset), the
direction token is `rev`, and the copied metadata is rewritten by
`update_fmap_json(..., True, intended_for)`; the accumulator is not
extended. -/
def stageFmapList (subj : String) :
    ℕ → List FmapSrc → FS → List String → FS × Except String ℕ
  | cnt, [], fs, _ => (fs, Except.ok cnt)
  | cnt, s :: rest, fs, intended =>
    let c := cnt + 1
    let outName := strict_fmap_bids_name subj (acqTok c) "rev" ".nii.gz"
    let fs1 := fsWrite fs ("fmap/" ++ outName) (FileC.raw s.payload)
    match s.json with
    | none =>
      (fs1, Except.error ("Source json not found for " ++ s.base ++ ".json"))
    | some m =>
      let jName := "fmap/" ++ strict_fmap_bids_name subj (acqTok c) "rev" ".json"
      let fs2 := fsWrite fs1 jName (FileC.json m)
      match update_fmap_json m true intended with
      | Except.error e => (fs2, Except.error e)
      | Except.ok m2 =>
        stageFmapList subj c rest (fsWrite fs2 jName (FileC.json m2)) intended

/-- The dwi-then-fmap core of `bidsify` in bidsify_qsiprep.py: sanitize
the subject label, stage every diffusion set (building the cross-reference
list), then stage the reverse-reference sets against that list.  The
later T1w, dataset-description and registry steps never touch the
dwi/fmap entries and are modelled separately. -/
def bidsifyCore (raw : String) (dwiSets : List DwiSrc) (fmapSets : List FmapSrc)
    (fs : FS) : FS × Except String Unit :=
  match stageDwiList ("sub-" ++ sanitize raw) 0 dwiSets fs [] with
  | (fs1, Except.error e) => (fs1, Except.error e)
  | (fs1, Except.ok (cnt, intended)) =>
    match stageFmapList ("sub-" ++ sanitize raw) cnt fmapSets fs1 intended with
    | (fs2, Except.error e) => (fs2, Except.error e)
    | (fs2, Except.ok _) => (fs2, Except.ok ())

/-- A successful DWI staging pass appends exactly the canonical relative
paths of its sets, in order, with consecutive counter values, to the
accumulator. -/
theorem stageDwiList_ok (subj : String) :
    ∀ (sets : List DwiSrc) (cnt : ℕ) (fs : FS) (acc : List String) (fs2 : FS)
      (cnt2 : ℕ) (ints : List String),
      stageDwiList subj cnt sets fs acc = (fs2, Except.ok (cnt2, ints)) →
      ints = acc ++ (List.range sets.length).map
        (fun k => "dwi/" ++ strict_dwi_bids_name subj (acqTok (cnt + k + 1))
          "fwd" ".nii.gz") ∧
      cnt2 = cnt + sets.length := by
  intro sets
  induction sets with
  | nil =>
    intro cnt fs acc fs2 cnt2 ints h
    unfold stageDwiList at h
    simp only [Prod.mk.injEq, Except.ok.injEq] at h
    obtain ⟨-, h2, h3⟩ := h
    subst h2; subst h3
    simp
  | cons s rest ih =>
    intro cnt fs acc fs2 cnt2 ints h
    unfold stageDwiList at h
    cases hj : s.json with
    | none =>
      rw [hj] at h
      simp only [Prod.mk.injEq] at h
      exact absurd h.2 (by simp)
    | some m =>
      rw [hj] at h
      dsimp only [] at h
      cases hu : update_dwi_json m false with
      | error e =>
        rw [hu] at h
        simp only [Prod.mk.injEq] at h
        exact absurd h.2 (by simp)
      | ok m2 =>
        rw [hu] at h
        dsimp only [] at h
        obtain ⟨h1, h2⟩ := ih (cnt + 1) _ _ _ _ _ h
        constructor
        · rw [h1, List.length_cons, List.range_succ_eq_map, List.map_cons,
            List.map_map, List.append_assoc, List.singleton_append]
          refine congrArg (fun t => acc ++ t) ?_
          refine congrArg (fun t => _ :: t) ?_
          refine List.map_congr_left ?_
          intro k _
          simp only [Function.comp_apply]
          refine congrArg (fun t : ℕ =>
            "dwi/" ++ strict_dwi_bids_name subj (acqTok t) "fwd" ".nii.gz") ?_
          omega
        · rw [h2, List.length_cons]
          omega

/-- The IntendedFor field of a successfully normalized fmap record is the
supplied list, whatever was there before. -/
theorem update_fmap_intended (m m2 : Dict) (r : Bool) (ints : List String)
    (h : update_fmap_json m r ints = Except.ok m2) :
    dGet m2 "IntendedFor" = some (JVal.arr ints) := by
  unfold update_fmap_json at h
  rw [derive_ped_other _ _ _ _ (by decide) h, dGet_dSet_self]

/-- C1: in every successful run of the strict pipeline that stages `n`
diffusion file sets and then one reverse-reference file set, the staged
reverse-reference metadata record's IntendedFor field is exactly the list
of the `n` diffusion output relative paths, in staging order, regardless
of any prior value of that field in the source record. -/
theorem c1_intended_for_complete :
    ∀ (raw : String) (dwiSets : List DwiSrc) (f : FmapSrc) (m : Dict) (fs0 : FS),
      f.json = some m →
      (bidsifyCore raw dwiSets [f] fs0).2 = Except.ok () →
      ∃ m2,
        fsGet (bidsifyCore raw dwiSets [f] fs0).1
            ("fmap/" ++ strict_fmap_bids_name ("sub-" ++ sanitize raw)
              (acqTok (dwiSets.length + 1)) "rev" ".json")
          = some (FileC.json m2) ∧
        dGet m2 "IntendedFor"
          = some (JVal.arr ((List.range dwiSets.length).map
              (fun k => "dwi/" ++ strict_dwi_bids_name ("sub-" ++ sanitize raw)
                (acqTok (k + 1)) "fwd" ".nii.gz"))) := by
  intro raw dwiSets f m fs0 hjson hok
  unfold bidsifyCore at hok ⊢
  cases hd : stageDwiList ("sub-" ++ sanitize raw) 0 dwiSets fs0 [] with
  | mk fs1 r1 =>
    rw [hd] at hok
    cases r1 with
    | error e => exact absurd hok (by simp)
    | ok p =>
      obtain ⟨cnt, intended⟩ := p
      dsimp only [] at hok ⊢
      obtain ⟨hints, hcnt⟩ := stageDwiList_ok _ _ _ _ _ _ _ _ hd
      cases hf : stageFmapList ("sub-" ++ sanitize raw) cnt [f] fs1 intended with
      | mk fs2 r2 =>
        rw [hf] at hok
        cases r2 with
        | error e => exact absurd hok (by simp)
        | ok c2 =>
          dsimp only [] at hok ⊢
          unfold stageFmapList at hf
          rw [hjson] at hf
          dsimp only [] at hf
          cases hu : update_fmap_json m true intended with
          | error e =>
            rw [hu] at hf
            simp only [Prod.mk.injEq] at hf
            exact absurd hf.2 (by simp)
          | ok m2 =>
            rw [hu] at hf
            dsimp only [] at hf
            unfold stageFmapList at hf
            simp only [Prod.mk.injEq, Except.ok.injEq] at hf
            obtain ⟨hfs2, -⟩ := hf
            refine ⟨m2, ?_, ?_⟩
            · rw [← hfs2, hcnt]
              simp only [Nat.zero_add]
              exact fsGet_fsWrite_self _ _ _
            · rw [update_fmap_intended m m2 true intended hu, hints]
              simp

/-- Witness for C1: one diffusion set and one reverse-reference set with
usable direction fields; the staged fmap record cross-references exactly
the one diffusion output. -/
theorem c1_intended_for_complete_witness :
    (bidsifyCore "A"
        [⟨"d", "P", none, none, some [("PhaseEncodingDirection", JVal.str "j")]⟩]
        [⟨"f", "Q", some [("PhaseEncodingDirection", JVal.str "j")]⟩] []).2
      = Except.ok () ∧
    ∃ m2,
      fsGet (bidsifyCore "A"
          [⟨"d", "P", none, none, some [("PhaseEncodingDirection", JVal.str "j")]⟩]
          [⟨"f", "Q", some [("PhaseEncodingDirection", JVal.str "j")]⟩] []).1
          ("fmap/" ++ strict_fmap_bids_name ("sub-" ++ sanitize "A") (acqTok 2)
            "rev" ".json")
        = some (FileC.json m2) ∧
      dGet m2 "IntendedFor"
        = some (JVal.arr
            ["dwi/" ++ strict_dwi_bids_name ("sub-" ++ sanitize "A") (acqTok 1)
              "fwd" ".nii.gz"]) :=
  ⟨by rfl,
    c1_intended_for_complete "A"
      [⟨"d", "P", none, none, some [("PhaseEncodingDirection", JVal.str "j")]⟩]
      ⟨"f", "Q", some [("PhaseEncodingDirection", JVal.str "j")]⟩
      [("PhaseEncodingDirection", JVal.str "j")] [] (by rfl) (by rfl)⟩

/-- C7 counterexample: staging a diffusion set whose payload copies
successfully but whose metadata companion is missing aborts the run, yet
the complete payload copy remains visible at its canonical destination
path; no cleanup or temp-then-move scheme exists. -/
theorem c7_counterexample :
    (stageDwiList ("sub-" ++ sanitize "A") 0 [⟨"d", "P", none, none, none⟩]
        [] []).2
      = Except.error "Source json not found for d.json" ∧
    fsGet (stageDwiList ("sub-" ++ sanitize "A") 0
        [⟨"d", "P", none, none, none⟩] [] []).1
        "dwi/sub-A_acq-01_dir-fwd_dwi.nii.gz"
      = some (FileC.raw "P") := by
  exact ⟨rfl, by decide⟩

/-- C7 (amended): when staging a file set fails partway (the payload image
copied, the required metadata companion missing), the strict pipeline
aborts with an error naming the missing path, but the already-copied
payload file stays visible at the canonical destination path: copies are
made directly to the canonical names, with no temp-then-move or cleanup. -/
theorem c7_partial_file_visible :
    ∀ (raw base payload : String) (fs0 : FS),
      (stageDwiList ("sub-" ++ sanitize raw) 0
          [⟨base, payload, none, none, none⟩] fs0 []).2
        = Except.error ("Source json not found for " ++ base ++ ".json") ∧
      fsGet (stageDwiList ("sub-" ++ sanitize raw) 0
          [⟨base, payload, none, none, none⟩] fs0 []).1
          ("dwi/" ++ strict_dwi_bids_name ("sub-" ++ sanitize raw) (acqTok 1)
            "fwd" ".nii.gz")
        = some (FileC.raw payload) := by
  intro raw base payload fs0
  constructor
  · rfl
  · show fsGet (fsWrite fs0
        ("dwi/" ++ strict_dwi_bids_name ("sub-" ++ sanitize raw) (acqTok 1)
          "fwd" ".nii.gz") (FileC.raw payload)) _ = _
    exact fsGet_fsWrite_self fs0 _ _

/-- `PED_MAP` of bidsify_qsiprep_draft.py. -/
def PED_MAP (d : String) : Option String :=
  if d = "AP" then some "j-" else if d = "PA" then some "j" else none

/-- `infer_ped_from_dir`. -/
def infer_ped_from_dir (dir_token : Option String) : Option String :=
  match dir_token with
  | none => none
  | some t => PED_MAP (String.mk (t.data.map Char.toUpper))

/-- A match of `(?:^|[_-])b(\d{3,5})(?:[^0-9]|$)` of BVAL_TOKEN_RE at
index `i`: `b` (any case) at a boundary, followed by a maximal ASCII
digit run of length 3 to 5 (a longer run backtracks below three digits
and fails; the character after the run, if any, is a non-digit by
maximality); returns the digit run. -/
def bvalTokenAt (s : List Char) (i : ℕ) : Option (List Char) :=
  let ds := (s.drop (i + 1)).takeWhile Char.isDigit
  if ((s.get? i).map Char.toLower = some 'b') ∧
      (i = 0 ∨ s.get? (i - 1) = some '_' ∨ s.get? (i - 1) = some '-') ∧
      (3 ≤ ds.length ∧ ds.length ≤ 5)
  then some ds else none

/-- Leftmost-match scan for BVAL_TOKEN_RE. -/
def findBvalTokFrom (s : List Char) : ℕ → ℕ → Option (List Char)
  | _, 0 => none
  | i, fuel + 1 =>
    match bvalTokenAt s i with
    | some r => some r
    | none => findBvalTokFrom s (i + 1) fuel

/-- `BVAL_TOKEN_RE.search(name)`. -/
def findBvalToken (s : List Char) : Option (List Char) :=
  findBvalTokFrom s 0 (s.length + 1)

/-- One discovered diffusion input of the draft pipeline: the filename
(used by the shell-token fallback), the payload, the parsed gradient
values when the gradient file exists, an optional gradient-direction
file, and an optional metadata record. -/
structure DraftSrc where
  name : String
  payload : String
  bval : Option (List ℚ)
  bvec : Option String
  json : Option Dict
deriving DecidableEq, Repr

/-- The DWI loop of `bidsify` in bidsify_qsiprep_draft.py (lines 176-193):
the acquisition token is `b` plus the shell inferred from the gradient
file, falling back to the filename token and then to "0" (Python `or` on
the always-truthy inferred string); the direction token is always `AP`;
present companions are copied under the shell-derived name; a missing
metadata file is replaced by a synthesized record rather than an error.
There is no collision check of any kind: a destination name already
produced by an earlier set is silently overwritten. -/
def stageDwiListDraft (subj : String) :
    List DraftSrc → FS → List String → FS × List String
  | [], fs, intended => (fs, intended)
  | s :: rest, fs, intended =>
    let bval : String := match s.bval with
      | some vals => infer_primary_bval vals
      | none =>
        match findBvalToken s.name.data with
        | some ds => String.mk ds
        | none => "0"
    let ped := infer_ped_from_dir (some "AP")
    let outName := draft_dwi_bids_name subj bval "AP" ".nii.gz"
    let fs1 := fsWrite fs ("dwi/" ++ outName) (FileC.raw s.payload)
    let fs2 := match s.bval with
      | some vals =>
        fsWrite fs1 ("dwi/" ++ draft_dwi_bids_name subj bval "AP" ".bval")
          (FileC.nums vals)
      | none => fs1
    let fs3 := match s.bvec with
      | some t =>
        fsWrite fs2 ("dwi/" ++ draft_dwi_bids_name subj bval "AP" ".bvec")
          (FileC.raw t)
      | none => fs2
    let jName := "dwi/" ++ draft_dwi_bids_name subj bval "AP" ".json"
    let fs4 := match s.json with
      | some m =>
        fsWrite (fsWrite fs3 jName (FileC.json m)) jName
          (FileC.json (update_dwi_json_draft m ped))
      | none =>
        fsWrite fs3 jName (FileC.json (match ped with
          | some p => if p = "" then [] else [("PhaseEncodingDirection", JVal.str p)]
          | none => []))
    stageDwiListDraft subj rest fs4 (intended ++ ["dwi/" ++ outName])

/-- C6 counterexample: two distinct draft diffusion sets whose gradient
files share the primary shell 1000 resolve to the same canonical name;
the run completes without any error (the staging function has no failure
path at all) and the second payload has silently replaced the first at
the canonical destination. -/
theorem c6_counterexample :
    fsGet (stageDwiListDraft "sub-S"
        [⟨"a.nii.gz", "PA", some [1000, 1000], none, none⟩,
         ⟨"b.nii.gz", "PB", some [0, 1000, 1000], none, none⟩] [] []).1
        "dwi/sub-S_acq-b1000_dir-AP_dwi.nii.gz"
      = some (FileC.raw "PB") ∧
    (stageDwiListDraft "sub-S"
        [⟨"a.nii.gz", "PA", some [1000, 1000], none, none⟩,
         ⟨"b.nii.gz", "PB", some [0, 1000, 1000], none, none⟩] [] []).2
      = ["dwi/sub-S_acq-b1000_dir-AP_dwi.nii.gz",
         "dwi/sub-S_acq-b1000_dir-AP_dwi.nii.gz"] := by
  decide

/-- C6 (amended): no pipeline variant raises a NamingCollision error.  The
strict pipeline prevents collisions structurally: distinct staging
positions receive distinct sequential acquisition tokens, so their
canonical names always differ; the draft pipeline, whose acquisition token
is the inferred shell value, silently overwrites the earlier output when
two sets infer the same shell. -/
theorem c6_collision_handling :
    (∀ (subj dir suf : String) (i j : ℕ), i ≠ j →
      strict_dwi_bids_name subj (acqTok i) dir suf
        ≠ strict_dwi_bids_name subj (acqTok j) dir suf) ∧
    fsGet (stageDwiListDraft "sub-S"
        [⟨"a.nii.gz", "PA", some [1000, 1000], none, none⟩,
         ⟨"b.nii.gz", "PB", some [0, 1000, 1000], none, none⟩] [] []).1
        "dwi/sub-S_acq-b1000_dir-AP_dwi.nii.gz"
      = some (FileC.raw "PB") := by
  constructor
  · intro subj dir suf i j hij h
    apply hij
    apply fmt2_inj
    have hd := congrArg String.data h
    simp only [strict_dwi_bids_name, acqTok, String.data_append,
      List.append_assoc] at hd
    have h1 := List.append_cancel_left hd
    have h2 := List.append_cancel_left h1
    exact List.append_cancel_right h2
  · decide

/-- Witness for C6 at positions 1 and 2. -/
theorem c6_collision_handling_witness :
    strict_dwi_bids_name "sub-X" (acqTok 1) "fwd" ".nii.gz"
      ≠ strict_dwi_bids_name "sub-X" (acqTok 2) "fwd" ".nii.gz" :=
  c6_collision_handling.1 "sub-X" "fwd" ".nii.gz" 1 2 (by decide)

/-- The row list read back from an existing `participants.tsv`:
`[x.strip() for x in read_text().splitlines()[1:] if x.strip()]`. -/
def parseParts (lines : List String) : List String :=
  ((lines.drop 1).map pyStrip).filter (fun x => decide (x ≠ ""))

/-- The participants-registry merge of `bidsify` (textually identical in
all three scripts): read the rows behind the header when the file exists,
union in `sub-<sanitized>`, sort, and rewrite the whole file under the
fixed header.  The Python row set is modelled by `dedup` (only the element
set reaches the sorted output). -/
def mergeParticipantsFile (prior : Option (List String)) (raw : String) :
    List String :=
  let subj := "sub-" ++ sanitize raw
  let rows := match prior with
    | some lines =>
      List.insertionSort (fun a b : String => a ≤ b)
        ((subj :: parseParts lines).dedup)
    | none => [subj]
  "participant_id" :: rows

/-- `split("\t")` worker, accumulating the current field reversed. -/
def splitTabAux : List Char → List Char → List (List Char)
  | [], acc => [acc.reverse]
  | c :: rest, acc =>
    if c = '\t' then acc.reverse :: splitTabAux rest []
    else splitTabAux rest (c :: acc)

/-- `s.split("\t")`. -/
def splitTab (s : String) : List String :=
  (splitTabAux s.data []).map String.mk

/-- Python string comparison: lexicographic on code points, a proper
prefix sorts first. -/
def charListLt : List Char → List Char → Bool
  | [], [] => false
  | [], _ :: _ => true
  | _ :: _, [] => false
  | c :: cs, d :: ds =>
    if c.toNat < d.toNat then true
    else if d.toNat < c.toNat then false
    else charListLt cs ds

/-- `a < b` on Python strings. -/
def strLt (a b : String) : Bool := charListLt a.data b.data

/-- Python tuple comparison on parsed registry rows (elementwise by
string order, a proper prefix sorts first). -/
def rowLtB : List String → List String → Bool
  | [], [] => false
  | [], _ :: _ => true
  | _ :: _, [] => false
  | a :: as, b :: bs =>
    if strLt a b then true
    else if strLt b a then false
    else rowLtB as bs

/-- The (non-strict) sort relation `sorted` uses on rows. -/
def rowLe (a b : List String) : Prop := rowLtB a b = true ∨ a = b

instance : DecidableRel rowLe := fun a b =>
  if h1 : rowLtB a b = true then isTrue (Or.inl h1)
  else if h2 : a = b then isTrue (Or.inr h2)
  else isFalse (fun hc => hc.elim h1 h2)

/-- `for a, b in pairs: f.write(f"{a}\t{b}\n")`: each tuple must unpack as
exactly two fields; any other width raises a ValueError. -/
def writeRows : List (List String) → Except String (List String)
  | [] => Except.ok []
  | t :: rest =>
    match t with
    | [a, b] =>
      match writeRows rest with
      | Except.error e => Except.error e
      | Except.ok ls => Except.ok ((a ++ "\t" ++ b) :: ls)
    | _ => Except.error "ValueError"

/-- The subject-map merge of `bidsify` (bidsify_qsiprep.py lines 291-301):
re-parse the file into stripped, tab-split tuples (blank lines skipped),
keep the first tuple as the header, union the `(raw, sub-<sanitized>)`
pair into the remaining tuples, sort, and rewrite the whole file: the
joined header line, then one tab-joined line per pair. -/
def mergeMapFile (prior : Option (List String)) (raw : String) :
    Except String (List String) :=
  let subj := "sub-" ++ sanitize raw
  match prior with
  | none =>
    Except.ok [String.intercalate "\t" ["xnat_subject", "bids_subject"],
      raw ++ "\t" ++ subj]
  | some fileLines =>
    let lns := (fileLines.filter (fun ln => decide (pyStrip ln ≠ ""))).map
      (fun ln => splitTab (pyStrip ln))
    let header : List String := match lns with
      | [] => ["xnat_subject", "bids_subject"]
      | h :: _ => h
    let pairs := List.insertionSort rowLe (([raw, subj] :: lns.drop 1).dedup)
    match writeRows pairs with
    | Except.error e => Except.error e
    | Except.ok body => Except.ok (String.intercalate "\t" header :: body)

theorem head_dw (p : Char → Bool) :
    ∀ (l : List Char) (c : Char) (t : List Char),
      l.dropWhile p = c :: t → p c = false := by
  intro l
  induction l with
  | nil => intro c t h; cases h
  | cons a u ih =>
    intro c t h
    by_cases hp : p a = true
    · rw [List.dropWhile_cons, if_pos hp] at h
      exact ih c t h
    · rw [List.dropWhile_cons, if_neg hp] at h
      injection h with h1 h2
      subst h1
      simp only [Bool.not_eq_true] at hp
      exact hp

theorem dw_eq_self_of_head (p : Char → Bool) (l : List Char)
    (h : ∀ c t, l = c :: t → p c = false) : l.dropWhile p = l := by
  cases l with
  | nil => rfl
  | cons c t =>
    rw [List.dropWhile_cons, if_neg (by simp [h c t rfl])]

theorem pyStripL_idem (l : List Char) : pyStripL (pyStripL l) = pyStripL l := by
  unfold pyStripL
  have h1 : ((((l.dropWhile pyWs).reverse.dropWhile pyWs).reverse).dropWhile pyWs)
      = ((l.dropWhile pyWs).reverse.dropWhile pyWs).reverse := by
    apply dw_eq_self_of_head
    intro c u hc
    obtain ⟨t, ht⟩ :=
      @List.dropWhile_suffix Char ((l.dropWhile pyWs).reverse) pyWs
    have hA : l.dropWhile pyWs
        = ((l.dropWhile pyWs).reverse.dropWhile pyWs).reverse ++ t.reverse := by
      have h2 := congrArg List.reverse ht
      rw [List.reverse_append, List.reverse_reverse] at h2
      exact h2.symm
    rw [hc] at hA
    exact head_dw pyWs l c (u ++ t.reverse) (by simpa using hA)
  rw [h1, List.reverse_reverse,
    dw_eq_self_of_head pyWs _ (head_dw pyWs (l.dropWhile pyWs).reverse)]

theorem pyStrip_idem (s : String) : pyStrip (pyStrip s) = pyStrip s := by
  show String.mk (pyStripL (pyStripL s.data)) = String.mk (pyStripL s.data)
  exact congrArg String.mk (pyStripL_idem s.data)

theorem pyStripL_eq_self (l : List Char)
    (h1 : ∀ c t, l = c :: t → pyWs c = false)
    (h2 : ∀ c t, l.reverse = c :: t → pyWs c = false) :
    pyStripL l = l := by
  unfold pyStripL
  rw [dw_eq_self_of_head pyWs l h1, dw_eq_self_of_head pyWs l.reverse h2,
    List.reverse_reverse]

theorem pyStripL_eq_self_of_all (l : List Char)
    (h : ∀ c ∈ l, pyWs c = false) : pyStripL l = l := by
  apply pyStripL_eq_self
  · intro c t hct
    exact h c (by rw [hct]; exact List.mem_cons_self c t)
  · intro c t hct
    refine h c (List.mem_reverse.mp ?_)
    rw [hct]
    exact List.mem_cons_self c t

theorem sanitize_chars (raw : String) :
    (sanitize raw).data ≠ [] ∧ ∀ c ∈ (sanitize raw).data, pyAlnum c = true := by
  unfold sanitize
  by_cases h : raw.data.filter pyAlnum = []
  · rw [if_pos h]
    exact ⟨by decide, by decide⟩
  · rw [if_neg h]
    exact ⟨h, fun c hc => List.of_mem_filter hc⟩

theorem pyAlnum_not_ws : ∀ c : Char, pyAlnum c = true → pyWs c = false := by
  intro c h
  simp only [pyAlnum, Bool.or_eq_true, Bool.and_eq_true, decide_eq_true_eq] at h
  simp only [pyWs, Bool.or_eq_false_iff, beq_eq_false_iff_ne, ne_eq]
  omega

theorem subj_no_ws (raw : String) :
    ∀ c ∈ ("sub-" ++ sanitize raw).data, pyWs c = false := by
  intro c hc
  rw [String.data_append] at hc
  rcases List.mem_append.mp hc with h | h
  · simp only [List.mem_cons, List.not_mem_nil, or_false] at h
    rcases h with rfl | rfl | rfl | rfl <;> rfl
  · exact pyAlnum_not_ws c ((sanitize_chars raw).2 c h)

theorem subj_ne_empty (raw : String) : ("sub-" ++ sanitize raw) ≠ "" := by
  intro h
  have h2 := congrArg String.data h
  rw [String.data_append] at h2
  simp at h2

theorem subj_strip_inv (raw : String) :
    pyStrip ("sub-" ++ sanitize raw) = "sub-" ++ sanitize raw := by
  show String.mk (pyStripL ("sub-" ++ sanitize raw).data) = "sub-" ++ sanitize raw
  rw [pyStripL_eq_self_of_all _ (subj_no_ws raw)]

theorem parseParts_mem (lines : List String) :
    ∀ x ∈ parseParts lines, pyStrip x = x ∧ x ≠ "" := by
  intro x hx
  unfold parseParts at hx
  rw [List.mem_filter] at hx
  obtain ⟨hm, hb⟩ := hx
  obtain ⟨y, hy, hxy⟩ := List.mem_map.mp hm
  refine ⟨?_, by simpa using hb⟩
  rw [← hxy]
  exact pyStrip_idem y

/-- Re-merging the same label into an already-merged participants file is
a no-op. -/
theorem mergeParticipants_stable (raw : String) (R : List String)
    (hmem : ("sub-" ++ sanitize raw) ∈ R)
    (hnd : R.Nodup)
    (hsort : List.Sorted (fun a b : String => a ≤ b) R)
    (hrows : ∀ x ∈ R, pyStrip x = x ∧ x ≠ "") :
    mergeParticipantsFile (some ("participant_id" :: R)) raw
      = "participant_id" :: R := by
  have hp : parseParts ("participant_id" :: R) = R := by
    unfold parseParts
    rw [List.drop_succ_cons, List.drop_zero]
    have hm : R.map pyStrip = R.map id :=
      List.map_congr_left (fun x hx => (hrows x hx).1)
    rw [hm, List.map_id]
    rw [List.filter_eq_self.mpr]
    intro a ha
    simpa using (hrows a ha).2
  unfold mergeParticipantsFile
  dsimp only []
  rw [hp, List.dedup_cons_of_mem hmem, List.dedup_eq_self.mpr hnd,
    List.Sorted.insertionSort_eq hsort]

theorem mergeParticipants_idem (prior : Option (List String)) (raw : String) :
    mergeParticipantsFile (some (mergeParticipantsFile prior raw)) raw
      = mergeParticipantsFile prior raw := by
  haveI ht : IsTotal String (fun a b : String => a ≤ b) := ⟨le_total⟩
  haveI htr : IsTrans String (fun a b : String => a ≤ b) :=
    ⟨fun a b c => le_trans⟩
  cases prior with
  | none =>
    show mergeParticipantsFile (some ("participant_id" :: ["sub-" ++ sanitize raw]))
        raw = "participant_id" :: ["sub-" ++ sanitize raw]
    apply mergeParticipants_stable
    · exact List.mem_singleton.mpr rfl
    · exact List.nodup_singleton _
    · exact List.sorted_singleton _
    · intro x hx
      rw [List.mem_singleton.mp hx]
      exact ⟨subj_strip_inv raw, subj_ne_empty raw⟩
  | some lines =>
    show mergeParticipantsFile
        (some ("participant_id" ::
          List.insertionSort (fun a b : String => a ≤ b)
            ((("sub-" ++ sanitize raw) :: parseParts lines).dedup))) raw
      = _
    have hperm := List.perm_insertionSort (fun a b : String => a ≤ b)
      ((("sub-" ++ sanitize raw) :: parseParts lines).dedup)
    apply mergeParticipants_stable
    · exact hperm.mem_iff.mpr
        (List.mem_dedup.mpr (List.mem_cons_self _ _))
    · exact hperm.nodup_iff.mpr (List.nodup_dedup _)
    · exact List.sorted_insertionSort _ _
    · intro x hx
      rcases List.mem_cons.mp (List.mem_dedup.mp (hperm.mem_iff.mp hx)) with
        hxs | hxp
      · rw [hxs]
        exact ⟨subj_strip_inv raw, subj_ne_empty raw⟩
      · exact parseParts_mem lines x hxp

theorem splitTabAux_no_tab :
    ∀ (m acc : List Char), (∀ c ∈ m, c ≠ '\t') →
      splitTabAux m acc = [acc.reverse ++ m] := by
  intro m
  induction m with
  | nil => intro acc _; simp [splitTabAux]
  | cons c t ih =>
    intro acc h
    unfold splitTabAux
    rw [if_neg (h c (List.mem_cons_self c t))]
    rw [ih (c :: acc) (fun d hd => h d (List.mem_cons_of_mem _ hd))]
    simp

theorem splitTabAux_append (l : List Char) (hl : ∀ c ∈ l, c ≠ '\t') :
    ∀ (m acc : List Char),
      splitTabAux (l ++ '\t' :: m) acc
        = (acc.reverse ++ l) :: splitTabAux m [] := by
  induction l with
  | nil =>
    intro m acc
    show splitTabAux ('\t' :: m) acc = (acc.reverse ++ []) :: splitTabAux m []
    rw [List.append_nil]
    conv_lhs => rw [splitTabAux]
    rw [if_pos rfl]
  | cons c t ih =>
    intro m acc
    have hc : c ≠ '\t' := hl c (List.mem_cons_self c t)
    show splitTabAux (c :: (t ++ '\t' :: m)) acc = _
    conv_lhs => rw [splitTabAux]
    rw [if_neg hc, ih (fun d hd => hl d (List.mem_cons_of_mem _ hd)) m (c :: acc)]
    simp

theorem splitTab_pair (a b : String) (ha : ∀ c ∈ a.data, c ≠ '\t')
    (hb : ∀ c ∈ b.data, c ≠ '\t') :
    splitTab (a ++ "\t" ++ b) = [a, b] := by
  unfold splitTab
  have hd : (a ++ "\t" ++ b).data = a.data ++ '\t' :: b.data := by
    simp [String.data_append]
  rw [hd, splitTabAux_append a.data ha b.data [],
    splitTabAux_no_tab b.data [] hb]
  simp only [List.reverse_nil, List.nil_append, List.map_cons, List.map_nil]

theorem head_not_ws_of_strip_inv (s : String) (hne : s ≠ "")
    (hinv : pyStrip s = s) :
    ∀ c t, s.data = c :: t → pyWs c = false := by
  intro c t hct
  by_cases hws : pyWs c = true
  · exfalso
    have hlen : (pyStripL s.data).length < s.data.length := by
      unfold pyStripL
      rw [hct, List.dropWhile_cons, if_pos hws]
      have l1 : ((t.dropWhile pyWs).reverse.dropWhile pyWs).length
          ≤ (t.dropWhile pyWs).reverse.length :=
        (List.dropWhile_sublist pyWs).length_le
      have l2 : (t.dropWhile pyWs).length ≤ t.length :=
        (List.dropWhile_sublist pyWs).length_le
      simp only [List.length_reverse, List.length_cons] at l1 ⊢
      omega
    have h2 : (pyStripL s.data).length = s.data.length := by
      have h3 := congrArg (fun x : String => x.data.length) hinv
      simpa [pyStrip] using h3
    omega
  · simpa using hws

theorem eq_empty_of_data_nil {s : String} (h : s.data = []) : s = "" := by
  cases s with
  | mk d =>
    have hd : d = [] := h
    rw [hd]

theorem head_append_mem {α : Type} (A B : List α) (c : α) (t : List α)
    (hA : A ≠ []) (h : A ++ B = c :: t) : c ∈ A := by
  cases A with
  | nil => exact absurd rfl hA
  | cons a u =>
    rw [List.cons_append] at h
    injection h with h1 _
    rw [h1]
    exact List.mem_cons_self _ _

theorem line_strip_inv (raw : String) (hne : raw ≠ "")
    (hinv : pyStrip raw = raw) :
    pyStrip (raw ++ "\t" ++ ("sub-" ++ sanitize raw))
      = raw ++ "\t" ++ ("sub-" ++ sanitize raw) := by
  have hdata : (raw ++ "\t" ++ ("sub-" ++ sanitize raw)).data
      = raw.data ++ '\t' :: ("sub-" ++ sanitize raw).data := by
    simp [String.data_append]
  have h1 : ∀ c t, (raw ++ "\t" ++ ("sub-" ++ sanitize raw)).data = c :: t →
      pyWs c = false := by
    intro c t hct
    rw [hdata] at hct
    cases hrd : raw.data with
    | nil => exact absurd (eq_empty_of_data_nil hrd) hne
    | cons c0 t0 =>
      rw [hrd, List.cons_append] at hct
      injection hct with hc0 _
      rw [← hc0]
      exact head_not_ws_of_strip_inv raw hne hinv c0 t0 hrd
  have h2 : ∀ c t,
      (raw ++ "\t" ++ ("sub-" ++ sanitize raw)).data.reverse = c :: t →
      pyWs c = false := by
    intro c t hct
    rw [hdata, List.reverse_append, List.reverse_cons, List.append_assoc] at hct
    have hsne : ("sub-" ++ sanitize raw).data.reverse ≠ [] := by
      intro hcon
      apply subj_ne_empty raw
      refine eq_empty_of_data_nil ?_
      have h4 := congrArg List.reverse hcon
      simpa using h4
    have hcmem := head_append_mem _ _ c t hsne hct
    exact subj_no_ws raw c (List.mem_reverse.mp hcmem)
  show String.mk (pyStripL _) = _
  rw [pyStripL_eq_self _ h1 h2]

/-- Re-merging the same label into the just-written two-line map file is a
no-op when the raw label is nonempty, strip-invariant and tab-free. -/
theorem mergeMap_stable (raw : String) (hne : raw ≠ "")
    (hinv : pyStrip raw = raw) (hch : ∀ c ∈ raw.data, c ≠ '\t') :
    mergeMapFile (some [String.intercalate "\t" ["xnat_subject", "bids_subject"],
        raw ++ "\t" ++ ("sub-" ++ sanitize raw)]) raw
      = Except.ok [String.intercalate "\t" ["xnat_subject", "bids_subject"],
          raw ++ "\t" ++ ("sub-" ++ sanitize raw)] := by
  have hline_inv := line_strip_inv raw hne hinv
  have hsubjtab : ∀ c ∈ ("sub-" ++ sanitize raw).data, c ≠ '\t' := by
    intro c hc hct
    have h2 := subj_no_ws raw c hc
    rw [hct] at h2
    exact absurd h2 (by decide)
  have hsplit := splitTab_pair raw ("sub-" ++ sanitize raw) hch hsubjtab
  unfold mergeMapFile
  dsimp only []
  have e2 : decide (pyStrip (raw ++ "\t" ++ ("sub-" ++ sanitize raw)) ≠ "")
      = true := by
    simp only [decide_eq_true_eq]
    rw [hline_inv]
    intro hcon
    have h3 := congrArg String.data hcon
    simp [String.data_append] at h3
  have hfil : List.filter (fun ln => decide (pyStrip ln ≠ ""))
      [String.intercalate "\t" ["xnat_subject", "bids_subject"],
        raw ++ "\t" ++ ("sub-" ++ sanitize raw)]
      = [String.intercalate "\t" ["xnat_subject", "bids_subject"],
        raw ++ "\t" ++ ("sub-" ++ sanitize raw)] := by
    simp only [List.filter_cons, List.filter_nil]
    rw [show decide (pyStrip (String.intercalate "\t"
        ["xnat_subject", "bids_subject"]) ≠ "") = true from by decide, e2]
    simp
  rw [hfil]
  simp only [List.map_cons, List.map_nil]
  rw [hline_inv, hsplit]
  rw [show splitTab (pyStrip (String.intercalate "\t"
      ["xnat_subject", "bids_subject"])) = ["xnat_subject", "bids_subject"]
    from by decide]
  simp only [List.drop_succ_cons, List.drop_zero]
  rw [List.dedup_cons_of_mem (List.mem_singleton.mpr rfl),
    List.dedup_eq_self.mpr (List.nodup_singleton _)]
  rfl

/-- C8 counterexample: for a raw label with leading whitespace, re-running
the subject-map merge with the very same label adds a second distinct row:
the written line strips to a different tuple on re-parse, so the claimed
idempotence of the subject-mapping registry fails. -/
theorem c8_counterexample :
    mergeMapFile none " x"
      = Except.ok ["xnat_subject\tbids_subject", " x\tsub-x"] ∧
    mergeMapFile (some ["xnat_subject\tbids_subject", " x\tsub-x"]) " x"
      = Except.ok ["xnat_subject\tbids_subject", " x\tsub-x", "x\tsub-x"] := by
  exact ⟨by rfl, by rfl⟩

/-- C8 (amended): merging into the participants registry is idempotent for
every raw label and every pre-existing file: the rewritten file is the
fixed header over the sorted, deduplicated union of the parsed rows with
the new entry, and re-merging changes nothing.  Merging into the
subject-mapping registry is idempotent provided the raw label is
nonempty, strip-invariant and tab-free; a label with leading or trailing
whitespace (or an embedded tab) does not round-trip through the
strip-and-split re-parse and yields a second row instead. -/
theorem c8_registry_merge :
    (∀ (prior : Option (List String)) (raw : String),
      mergeParticipantsFile (some (mergeParticipantsFile prior raw)) raw
        = mergeParticipantsFile prior raw) ∧
    (∀ (raw : String) (L : List String),
      raw ≠ "" → pyStrip raw = raw → (∀ c ∈ raw.data, c ≠ '\t') →
      mergeMapFile none raw = Except.ok L →
      mergeMapFile (some L) raw = Except.ok L) := by
  constructor
  · exact mergeParticipants_idem
  · intro raw L hne hinv hch h0
    have hL : L = [String.intercalate "\t" ["xnat_subject", "bids_subject"],
        raw ++ "\t" ++ ("sub-" ++ sanitize raw)] := by
      unfold mergeMapFile at h0
      dsimp only [] at h0
      injection h0 with h1
      exact h1.symm
    rw [hL]
    exact mergeMap_stable raw hne hinv hch

/-- Witness for C8: the clean label "x" merges idempotently into the map
registry (and hence yields exactly one data row after two merges). -/
theorem c8_registry_merge_witness :
    mergeMapFile none "x"
      = Except.ok ["xnat_subject\tbids_subject", "x\tsub-x"] ∧
    mergeMapFile (some ["xnat_subject\tbids_subject", "x\tsub-x"]) "x"
      = Except.ok ["xnat_subject\tbids_subject", "x\tsub-x"] :=
  ⟨by rfl,
    c8_registry_merge.2 "x" ["xnat_subject\tbids_subject", "x\tsub-x"]
      (by decide) (by decide) (by decide) (by rfl)⟩

/-- `ensure_dir` of rename_fs_dir.py: `mkdir(parents=True, exist_ok=True)`
creates the directory and every ancestor; directories are component-path
lists and the filesystem is the list of existing directories. -/
def ensure_dir (fs : List (List String)) (p : List String) :
    List (List String) :=
  ((List.range p.length).map (fun k => p.take (k + 1))) ++ fs

/-- `shutil.copytree(src, dst)` with the default `dirs_exist_ok=False`:
its first step `os.makedirs(dst)` raises FileExistsError when the
destination already exists; otherwise the destination tree is created
(file contents are outside this model). -/
def copytree (fs : List (List String)) (src dst : List String) :
    Except String (List (List String)) :=
  if dst ∈ fs then Except.error "FileExistsError"
  else Except.ok (dst :: fs)

/-- `main` of rename_fs_dir.py: sanitize both labels, build
`<subjects_dir>/sub-<subj>/ses-<sess>`, `ensure_dir` it, then `copytree`
the FreeSurfer directory onto it. -/
def rename_fs_main (fs : List (List String)) (fs_dir : List String)
    (subject_label session_label : String) (subjects_dir : List String) :
    Except String (List (List String)) :=
  let subj := "sub-" ++ sanitize subject_label
  let sess := "ses-" ++ sanitize session_label
  let sess_root := subjects_dir ++ [subj, sess]
  copytree (ensure_dir fs sess_root) fs_dir sess_root

theorem ensure_dir_self_mem (fs : List (List String)) (p : List String)
    (hp : p ≠ []) : p ∈ ensure_dir fs p := by
  unfold ensure_dir
  apply List.mem_append.mpr
  left
  apply List.mem_map.mpr
  refine ⟨p.length - 1, List.mem_range.mpr ?_, ?_⟩
  · have h0 : 0 < p.length := List.length_pos.mpr hp
    omega
  · have h1 : p.length - 1 + 1 = p.length := by
      have h0 : 0 < p.length := List.length_pos.mpr hp
      omega
    rw [h1, List.take_length]

theorem copytree_exist (fs : List (List String)) (src dst : List String)
    (h : dst ∈ fs) : copytree fs src dst = Except.error "FileExistsError" := by
  unfold copytree
  rw [if_pos h]

/-- C10: the session-aware FreeSurfer relocation always fails: `main`
first creates the destination directory `sub-<id>/ses-<id>` (mkdir with
exist_ok), then calls `shutil.copytree` whose destination must not exist,
so every invocation raises FileExistsError and the relocation never
completes. -/
theorem c10_rename_fs_always_fails :
    ∀ (fs : List (List String)) (fs_dir : List String)
      (subject_label session_label : String) (subjects_dir : List String),
      rename_fs_main fs fs_dir subject_label session_label subjects_dir
        = Except.error "FileExistsError" := by
  intro fs fs_dir subl sesl subsdir
  unfold rename_fs_main
  apply copytree_exist
  apply ensure_dir_self_mem
  simp

end Qsi
